import Mathlib

/-!
Verification of `open_webui/retrieval/agentic_rag.py` (Agentic RAG engine).

This file gives a shallow embedding of the module's data model and control
flow and proves or refutes the specification claims about it.

Modelling conventions:
* Python `float` relevance/confidence scores are modelled as rationals `ℚ`
  (only ordering and equality of small literal values matter here; concrete
  literals such as `0.1` are written `mkRat 1 10`).
* Fallible operations (`list_tool_specs`, `call_tool`, the `[0]` indexing in
  the response-extraction chain) are modelled with `Except`.
* Every call to the language model, to a tool, or to the document store is an
  external effect; its response is supplied by an explicit oracle argument,
  so each engine method becomes a pure function of its inputs and of the
  external responses it consumes.
* Python's `sorted(..., key=..., reverse=True)` is a stable sort.  A stable
  sort with respect to a total preorder is extensionally unique, so it is
  modelled by `List.insertionSort` with the descending-key relation, which is
  stable and structurally recursive (hence evaluable by `decide`).
-/

namespace AgenticRAG

/-- Scores and confidences (Python floats) are modelled as rationals. -/
abbrev Score := ℚ

/-! ### Answer validation data model and the keyword fallback parser -/

/-- `AnswerValidationResult` (agentic_rag.py lines 39-54): the constructor
stores `is_correct`, `is_relevant`, `reasoning`, `confidence`. -/
structure AnswerValidationResult where
  is_correct : Bool
  is_relevant : Bool
  reasoning : String
  confidence : Score
deriving DecidableEq

/-- The derived field `is_valid = is_correct and is_relevant`
(agentic_rag.py line 54). -/
def AnswerValidationResult.is_valid (v : AnswerValidationResult) : Bool :=
  v.is_correct && v.is_relevant

/-- Python `text.lower()`, as a character sequence. -/
def textLower (s : String) : List Char := s.toList.map Char.toLower

/-- Does `hay` start with `needle`?  (Helper for the substring test.) -/
def startsWithChars : List Char → List Char → Bool
  | [], _ => true
  | _ :: _, [] => false
  | a :: as, b :: bs => a == b && startsWithChars as bs

/-- Python's substring test `needle in hay`: `needle` occurs contiguously in
`hay`. -/
def containsChars (needle : List Char) : List Char → Bool
  | [] => startsWithChars needle []
  | hay@(_ :: rest) => startsWithChars needle hay || containsChars needle rest

/-- Python `word in text_lower` for a keyword `word` over the lower-cased
response text. -/
def containsWord (text : List Char) (word : String) : Bool :=
  containsChars word.toList text

/-- `_parse_validation_from_text` (agentic_rag.py lines 666-676): the keyword
fallback used when the validator's response holds no decodable JSON object.
`is_correct` is the absence of any of `["incorrect", "wrong", "false", "no"]`
in the lower-cased text; `is_relevant` the absence of any of
`["irrelevant", "not relevant", "no"]`. -/
def parse_validation_from_text (text : String) : AnswerValidationResult :=
  let text_lower := textLower text
  { is_correct := !(["incorrect", "wrong", "false", "no"].any
      (fun w => containsWord text_lower w))
    is_relevant := !(["irrelevant", "not relevant", "no"].any
      (fun w => containsWord text_lower w))
    reasoning := text
    confidence := mkRat 6 10 }

/-! ### Language Model Gateway response extraction -/

/-- The `"message"` entry of a choice: may lack the `"content"` key. -/
structure LLMMessage where
  content : Option String
deriving DecidableEq

/-- One entry of the `"choices"` list: may lack the `"message"` key. -/
structure LLMChoice where
  message : Option LLMMessage
deriving DecidableEq

/-- A Language Model Gateway response: may lack the `"choices"` key
(`none`), or carry any list of choices. -/
structure LLMResponse where
  choices : Option (List LLMChoice)
deriving DecidableEq

/-- The extraction chain
`response.get("choices", [{}])[0].get("message", {}).get("content", "")`
(agentic_rag.py lines 127, 220, 384, 430, 491).  A missing `"choices"` key
defaults to `[{}]`; indexing `[0]` on an empty list raises `IndexError`,
modelled as `Except.error ()`; missing `"message"`/`"content"` keys default
to `{}` and `""`. -/
def extract_content (r : LLMResponse) : Except Unit String :=
  match r.choices.getD [⟨none⟩] with
  | [] => Except.error ()
  | c :: _ => Except.ok ((c.message.getD ⟨none⟩).content.getD "")

/-! ### Tool Orchestrator (`interact_with_mcp_servers`) -/

/-- One tool specification returned by a provider's `list_tool_specs()`. -/
structure ToolSpec where
  name : String
  description : String
  parameters : String
deriving DecidableEq

/-- A tool-calling client (one MCP provider): `list_tool_specs` is the
outcome of its listing call, `call_tool` the outcome of invoking a named
tool with (opaque) arguments. -/
structure MCPClient where
  list_tool_specs : Except String (List ToolSpec)
  call_tool : String → String → Except String String

/-- One planned invocation from the model's tool-selection plan. -/
structure ToolUse where
  server_id : String
  tool_name : String
  arguments : String
deriving DecidableEq

/-- One element of the result sequence (agentic_rag.py lines 245-250). -/
structure ToolResult where
  server_id : String
  tool_name : String
  result : String
  query : String
deriving DecidableEq

/-- The available-tools enumeration (agentic_rag.py lines 177-190): tool
specs are collected per provider in registry order; a provider whose listing
call fails is skipped. -/
def collect_available_tools (mcp_clients : List (String × MCPClient)) :
    List (String × ToolSpec) :=
  mcp_clients.foldl (fun acc p =>
    match p.2.list_tool_specs with
    | Except.error _ => acc
    | Except.ok specs => acc ++ specs.map (fun s => (p.1, s))) []

/-- `interact_with_mcp_servers` (agentic_rag.py lines 159-258).  The provider
registry dict is an association list.  The planning exchange with the
Language Model Gateway is abstracted by `plan`: `none` models a planning
response with no decodable JSON object (lines 223-232), `some uses` the
decoded `tools_to_use` list.  The returned Bool records whether the planning
request was issued (line 219); the early returns at lines 170-171 (empty
registry) and 192-193 (no tools enumerated) happen before that request. -/
def interact_with_mcp_servers (plan : Option (List ToolUse)) (query : String)
    (mcp_clients : List (String × MCPClient)) : List ToolResult × Bool :=
  if mcp_clients.isEmpty then ([], false)
  else
    let available_tools := collect_available_tools mcp_clients
    if available_tools.isEmpty then ([], false)
    else
      match plan with
      | none => ([], true)
      | some tools_to_use =>
        (tools_to_use.foldl (fun results u =>
          match mcp_clients.find? (fun p => p.1 == u.server_id) with
          | none => results
          | some p =>
            match p.2.call_tool u.tool_name u.arguments with
            | Except.error _ => results
            | Except.ok res => results ++ [⟨u.server_id, u.tool_name, res, query⟩])
          [], true)

/-! ### Reranker (`rerank_search_results`) -/

/-- One search-result dict (a `RetrievedSource`).  `document` is the
`"document"` entry (passage texts), `metadata` the `"metadata"` entry
(per-passage attributes, kept opaque as strings); `none` models an absent
key, mirroring the `"document" in result` / `"metadata" in result` tests and
the `result.get("metadata", [])` default in the source. -/
structure Source where
  document : Option (List String)
  metadata : Option (List String)
deriving DecidableEq

/-- The score-assignment loop (agentic_rag.py lines 286-295): walking the
documents of one source, consume the next global reranked score while `idx`
is in range, otherwise append `0.0` without advancing `idx`.  Returns the
per-source `doc_scores` and the new `idx`. -/
def assignScores (reranked_scores : List Score) : Nat → Nat → List Score × Nat
  | idx, 0 => ([], idx)
  | idx, n + 1 =>
    if idx < reranked_scores.length then
      let rest := assignScores reranked_scores (idx + 1) n
      (reranked_scores.getD idx 0 :: rest.1, rest.2)
    else
      let rest := assignScores reranked_scores idx n
      ((0 : Score) :: rest.1, rest.2)

/-- Descending order on the third component (the reranking score), as used
by `sorted(..., key=lambda x: x[2], reverse=True)` over
`zip(documents, metadata, doc_scores)` triples, here represented as
`((document, metadata), score)`. -/
def descByScore (a b : (String × String) × Score) : Prop := b.2 ≤ a.2

instance : DecidableRel descByScore := fun a b => by
  unfold descByScore; infer_instance

/-- The per-source pass of `rerank_search_results` (agentic_rag.py lines
286-306): for each result carrying a `"document"` key, assign scores, and —
when `doc_scores` is non-empty — rebuild `document` (and `metadata`, if that
key is present) from the stably score-sorted `zip(document, metadata,
doc_scores)` triples.  Note `zip` truncates to the shortest input. -/
def rerankPass (reranked_scores : List Score) : Nat → List Source → List Source
  | _, [] => []
  | idx, r :: rest =>
    match r.document with
    | none => r :: rerankPass reranked_scores idx rest
    | some docs =>
      let assigned := assignScores reranked_scores idx docs.length
      let doc_scores := assigned.1
      if doc_scores = [] then r :: rerankPass reranked_scores assigned.2 rest
      else
        let sorted_pairs :=
          List.insertionSort descByScore ((docs.zip (r.metadata.getD [])).zip doc_scores)
        let r' : Source :=
          { document := some (sorted_pairs.map (fun p => p.1.1))
            metadata := match r.metadata with
              | none => none
              | some _ => some (sorted_pairs.map (fun p => p.1.2)) }
        r' :: rerankPass reranked_scores assigned.2 rest

/-- The sort key of the final result-level sort (agentic_rag.py lines
309-319).  The lambda re-zips each result's documents and metadata with
`[0.0] * len(documents)` — fresh zeros, not the reranking scores — sorts the
triples, and takes `max` of their third components.  A falsy `"document"`
entry short-circuits to `0.0`.  `max` of an empty list raises `ValueError`,
modelled as `none`. -/
def resultSortKey (r : Source) : Option Score :=
  match r.document with
  | none => some 0
  | some [] => some 0
  | some docs =>
    let zipped := (docs.zip (r.metadata.getD [])).zip
      (List.replicate docs.length (0 : Score))
    let sortedz := List.insertionSort descByScore zipped
    (sortedz.map (fun p => p.2)).max?

/-- Descending order on the result-level sort key. -/
def descByKey (a b : Source) : Prop :=
  (resultSortKey b).getD 0 ≤ (resultSortKey a).getD 0

instance : DecidableRel descByKey := fun a b => by
  unfold descByKey; infer_instance

/-- The final result-level sort (agentic_rag.py lines 308-321).  CPython's
`list.sort` computes all keys before reordering, so if any key raises
`ValueError` the list is left unchanged and the exception is caught by the
surrounding handler (lines 323-324), which returns the list as it stands. -/
def sortResults (results : List Source) : List Source :=
  if results.all (fun r => (resultSortKey r).isSome) then
    List.insertionSort descByKey results
  else results

/-- Number of `(query, document)` pairs sent to the scorer (agentic_rag.py
lines 273-277): one per document of each result carrying a `"document"`
key. -/
def sentencesCount (results : List Source) : Nat :=
  (results.map (fun r => (r.document.getD []).length)).sum

/-- `rerank_search_results` (agentic_rag.py lines 260-326), for a configured
scoring function.  The scorer's reply to the single batched call (line 283)
is the oracle argument `reranked_scores`.  Guards: an empty result list
(line 268) or an empty pair batch (lines 279-280) return the input
unchanged. -/
def rerank_search_results (reranked_scores : List Score)
    (search_results : List Source) : List Source :=
  if search_results.isEmpty then search_results
  else if sentencesCount search_results = 0 then search_results
  else sortResults (rerankPass reranked_scores 0 search_results)

/-! ### Iteration Controller (`process`) -/

/-- `QueryAnalysisResult` (agentic_rag.py lines 23-36).  `rewritten_query`
is a string with `""` standing for a Python-falsy value (the truthiness test
at line 526 treats `None` and `""` alike). -/
structure QueryAnalysisResult where
  needs_additional_data : Bool
  rewritten_query : String
  reasoning : String
  confidence : Score
deriving DecidableEq

/-- The external responses consumed during one loop iteration of `process`.
Each field models one collaborator call of that iteration, as a function of
the inputs the source passes to it: `analysis` is `analyze_query` on the
current query; `mcpResults` is `interact_with_mcp_servers` on the (possibly
rewritten) query; `sources` is the document-store query (already folded
through its `try/except`, so a retrieval fault is the oracle answering
`[]`); `rerankScores` is the scoring function's reply used inside
`rerank_search_results`; `answer` is `generate_answer` on (query, context,
mcp results); `validation` is `validate_answer` on (query, answer);
`rewritten` is `rewrite_query` on (original query, answer, validation). -/
structure AttemptOracle where
  analysis : String → QueryAnalysisResult
  mcpResults : String → List ToolResult
  sources : String → List Source
  rerankScores : String → List Source → List Score
  answer : String → String → List ToolResult → String
  validation : String → String → AnswerValidationResult
  rewritten : String → String → AnswerValidationResult → String

/-- Ghost record of one completed attempt (the spec's `AttemptOutcome`):
the working query that drove it, what it produced, and its validation. -/
structure Attempt where
  query : String
  answer : String
  validation : AnswerValidationResult
  sources : List Source
  mcpResults : List ToolResult
deriving DecidableEq

/-- The state at exit of the `while` loop of `process`: the threaded
`best_answer`, `best_sources`, last bound `mcp_results` (`none` when the
loop body never ran, mirroring `'mcp_results' in locals()`), the iteration
counter, the current query, and the ghost trace of completed attempts. -/
structure GoOut where
  best : Option String
  bestSources : List Source
  lastMcp : Option (List ToolResult)
  iteration : Nat
  currentQuery : String
  trace : List Attempt
deriving DecidableEq

/-- The final dict returned by `process` (agentic_rag.py lines 613-619). -/
structure ProcessResult where
  answer : String
  sources : List Source
  mcp_results : List ToolResult
  iterations : Nat
  final_query : String
deriving DecidableEq

/-- Context assembly (agentic_rag.py lines 570-577): the first two documents
of each of the top `k_reranker` sources, joined with blank lines. -/
def buildContext (sources : List Source) (k_reranker : Nat) : String :=
  let context_parts := (sources.take k_reranker).foldl (fun acc s =>
    match s.document with
    | none => acc
    | some docs => acc ++ docs.take 2) []
  String.intercalate "\n\n" context_parts

/-- Python `best_answer or fallback`: `None` and the empty string are both
falsy (agentic_rag.py line 614). -/
def pyOrElse (best : Option String) (fallback : String) : String :=
  match best with
  | none => fallback
  | some a => if a = "" then fallback else a

/-- The static fallback answer string (agentic_rag.py line 614). -/
def fallbackAnswer : String := "Unable to generate a satisfactory answer."

/-- The body of one loop iteration of `process` up to validation
(agentic_rag.py lines 517-590): analyze the current query and adopt a
truthy differing rewrite (lines 521-528); gather tool results if needed and
providers exist (lines 531-534); query the document store if needed and
collections exist (lines 537-563, with its `try/except` folded into the
oracle); rerank when sources exist and a scorer is configured (lines
565-567); build the context from the top `k_reranker` sources (lines
570-577); generate the answer (lines 580-585); validate it (line 588).
The returned `Attempt` packages that iteration's working query, answer,
validation, (reranked) sources and tool results. -/
def stepAttempt (env : Nat → AttemptOracle)
    (hasClients hasCollections hasReranker : Bool) (k_reranker : Nat)
    (it' : Nat) (q : String) : Attempt :=
  let o := env it'
  let analysis := o.analysis q
  let q' := if analysis.rewritten_query ≠ "" ∧ analysis.rewritten_query ≠ q
    then analysis.rewritten_query else q
  let mcp_results := if analysis.needs_additional_data && hasClients
    then o.mcpResults q' else []
  let sources0 := if analysis.needs_additional_data && hasCollections
    then o.sources q' else []
  let sources := if ¬ sources0.isEmpty ∧ hasReranker
    then rerank_search_results (o.rerankScores q' sources0) sources0
    else sources0
  let answer := o.answer q' (buildContext sources k_reranker) mcp_results
  let validation := o.validation q' answer
  ⟨q', answer, validation, sources, mcp_results⟩

/-- The `while iteration < self.max_iterations` loop of `process`
(agentic_rag.py lines 516-610), as structural recursion on the remaining
iteration budget `fuel`.  At every reachable call `fuel = M - it`, so the
`fuel` pattern match is exactly the loop condition `iteration <
max_iterations`.  `env i` supplies the external responses of iteration `i`
(1-based); `M` is `max_iterations` (as a natural number, see `process`);
`origQ` is the caller's original query, used as the rewrite anchor (line
601); the remaining arguments thread the loop variables `iteration`,
`current_query`, `best_answer`, `best_sources`, the last bound
`mcp_results`, and the ghost trace. -/
def processGo (env : Nat → AttemptOracle) (M : Nat) (origQ : String)
    (hasClients hasCollections hasReranker : Bool) (k_reranker : Nat) :
    Nat → Nat → String → Option String → List Source →
      Option (List ToolResult) → List Attempt → GoOut
  | 0, it, q, best, bestSrc, lastMcp, tr => ⟨best, bestSrc, lastMcp, it, q, tr⟩
  | fuel + 1, it, q, best, bestSrc, _lastMcp, tr =>
    let att := stepAttempt env hasClients hasCollections hasReranker
      k_reranker (it + 1) q
    let tr' := tr ++ [att]
    if att.validation.is_valid then
      ⟨some att.answer, att.sources, some att.mcpResults, it + 1, att.query,
        tr'⟩
    else if it + 1 < M then
      processGo env M origQ hasClients hasCollections hasReranker k_reranker
        fuel (it + 1)
        ((env (it + 1)).rewritten origQ att.answer att.validation)
        best bestSrc (some att.mcpResults) tr'
    else
      ⟨some att.answer, att.sources, some att.mcpResults, it + 1, att.query,
        tr'⟩

/-- `process` (agentic_rag.py lines 499-619).  `max_iterations` is a Python
int, possibly non-positive, hence `ℤ`; for a natural counter `it`,
`(it + 1 : ℤ) < max_iterations ↔ it + 1 < max_iterations.toNat`, so the
loop uses `max_iterations.toNat` both as bound and as budget.  `hasClients`
is `self.mcp_clients` non-empty, `hasCollections` is `collection_names`
non-empty, `hasReranker` is `self.reranking_function is not None`.  Returns
the result dict together with the ghost trace of completed attempts. -/
def process (env : Nat → AttemptOracle) (max_iterations : Int)
    (hasClients hasCollections hasReranker : Bool) (query : String)
    (k_reranker : Nat := 3) : ProcessResult × List Attempt :=
  let M := max_iterations.toNat
  let out := processGo env M query hasClients hasCollections hasReranker
    k_reranker M 0 query none [] none []
  ({ answer := pyOrElse out.best fallbackAnswer
     sources := out.bestSources
     mcp_results := out.lastMcp.getD []
     iterations := out.iteration
     final_query := out.currentQuery }, out.trace)

/-! ### Helper lemmas -/

/-- The score-assignment loop yields exactly one score per document. -/
theorem assignScores_length (scores : List Score) :
    ∀ (n idx : Nat), (assignScores scores idx n).1.length = n := by
  intro n
  induction n with
  | zero => intro idx; rfl
  | succ m ih =>
    intro idx
    unfold assignScores
    split
    · simp [ih]
    · simp [ih]

/-- Closed form of the score-assignment loop: the in-range tail of the score
list followed by zero padding. -/
theorem assignScores_eq (scores : List Score) :
    ∀ (n idx : Nat), (assignScores scores idx n).1 =
      (scores.drop idx).take n ++
        List.replicate (n - (scores.length - idx)) (0 : Score) := by
  intro n
  induction n with
  | zero => intro idx; simp [assignScores]
  | succ m ih =>
    intro idx
    unfold assignScores
    split
    · rename_i hlt
      have hdrop : scores.drop idx = scores[idx] :: scores.drop (idx + 1) :=
        List.drop_eq_getElem_cons hlt
      have hcount : m - (scores.length - (idx + 1))
          = m + 1 - (scores.length - idx) := by omega
      simp only [ih (idx + 1), hdrop, List.take_succ_cons, List.getD,
        List.get?_eq_getElem?, List.getElem?_eq_getElem hlt, Option.getD_some,
        hcount, List.cons_append]
    · rename_i hge
      have h1 : scores.drop idx = [] := by
        apply List.drop_eq_nil_of_le; omega
      have h2 : scores.length - idx = 0 := by omega
      simp [ih idx, h1, h2, List.replicate_succ]

/-- The result-level sort on a single result is the identity. -/
theorem sortResults_single (r : Source) : sortResults [r] = [r] := by
  unfold sortResults
  split
  · simp [List.insertionSort, List.orderedInsert]
  · rfl

/-- The result-level sort permutes the results. -/
theorem sortResults_perm (results : List Source) :
    (sortResults results).Perm results := by
  unfold sortResults
  split
  · exact List.perm_insertionSort _ _
  · exact List.Perm.refl _

/-- With every provider's listing call failing, the available-tools
enumeration is empty. -/
theorem collect_available_tools_all_error (clients : List (String × MCPClient))
    (h : ∀ p ∈ clients, ∃ e, p.2.list_tool_specs = Except.error e) :
    collect_available_tools clients = [] := by
  unfold collect_available_tools
  suffices hgen : ∀ acc : List (String × ToolSpec),
      clients.foldl (fun acc p =>
        match p.2.list_tool_specs with
        | Except.error _ => acc
        | Except.ok specs => acc ++ specs.map (fun s => (p.1, s))) acc = acc by
    exact hgen []
  induction clients with
  | nil => intro acc; rfl
  | cons p rest ih =>
    intro acc
    obtain ⟨e, he⟩ := h p (by simp)
    have hrest : ∀ p' ∈ rest, ∃ e', p'.2.list_tool_specs = Except.error e' := by
      intro p' hp'
      exact h p' (by simp [hp'])
    simp only [List.foldl_cons, he]
    exact ih hrest acc

/-! ### Claim theorems -/

/-- Claim C9 (confirmed): every validator response text that reaches the
keyword fallback and contains the substring "no" (case-insensitively, also
inside longer words) yields `is_correct = false` and `is_relevant = false`,
hence `is_valid = false`, since "no" is a member of both keyword lists. -/
theorem validation_fallback_no_keyword (text : String)
    (h : containsWord (textLower text) "no" = true) :
    (parse_validation_from_text text).is_correct = false ∧
    (parse_validation_from_text text).is_relevant = false ∧
    (parse_validation_from_text text).is_valid = false := by
  simp [parse_validation_from_text, AnswerValidationResult.is_valid, h]

/-- Witness for claim C9 at the concrete response text "I do Not know",
which contains "no" only inside "Not". -/
theorem validation_fallback_no_keyword_witness :
    containsWord (textLower "I do Not know") "no" = true ∧
    (parse_validation_from_text "I do Not know").is_valid = false :=
  ⟨by decide, (validation_fallback_no_keyword "I do Not know" (by decide)).2.2⟩

/-- Claim C7 counterexample: a response whose `choices` list is present but
empty makes the extraction chain raise `IndexError` (modelled as
`Except.error ()`), not return empty text, refuting "a response containing
no choice yields empty generated text rather than a fault". -/
theorem extract_content_empty_choices_faults :
    extract_content ⟨some []⟩ = Except.error () := rfl

/-- Claim C7 (amended): only `choices[0].message.content` is read — the
result is independent of every later choice — and a response lacking the
`choices` key entirely yields empty text; an empty `choices` list instead
raises an index fault handled by the calling stage's error handler. -/
theorem extract_content_amended :
    (∀ (c : LLMChoice) (rest rest' : List LLMChoice),
      extract_content ⟨some (c :: rest)⟩ = extract_content ⟨some (c :: rest')⟩) ∧
    extract_content ⟨none⟩ = Except.ok "" ∧
    (∀ (c : LLMChoice) (rest : List LLMChoice),
      extract_content ⟨some (c :: rest)⟩ =
        Except.ok ((c.message.getD ⟨none⟩).content.getD "")) :=
  ⟨fun _ _ _ => rfl, rfl, fun _ _ => rfl⟩

/-- Claim C6 (confirmed): with an empty provider registry the Tool
Orchestrator returns an empty result sequence without issuing the planning
request, and likewise when every registered provider's listing call fails. -/
theorem interact_empty_registry_or_all_listings_fail :
    (∀ (plan : Option (List ToolUse)) (q : String),
      interact_with_mcp_servers plan q [] = ([], false)) ∧
    (∀ (plan : Option (List ToolUse)) (q : String)
      (clients : List (String × MCPClient)),
      (∀ p ∈ clients, ∃ e, p.2.list_tool_specs = Except.error e) →
      interact_with_mcp_servers plan q clients = ([], false)) := by
  constructor
  · intro plan q; rfl
  · intro plan q clients h
    unfold interact_with_mcp_servers
    by_cases hc : clients.isEmpty
    · simp [hc]
    · simp [hc, collect_available_tools_all_error clients h]

/-- A provider whose listing call fails, for the claim C6 witness. -/
def failingClient : MCPClient :=
  ⟨Except.error "listing failed", fun _ _ => Except.error "unreachable"⟩

/-- Witness for claim C6: one registered provider whose listing call fails;
even with a non-trivial plan the orchestrator returns no results and issues
no planning request. -/
theorem interact_all_listings_fail_witness :
    interact_with_mcp_servers (some [⟨"srv", "tool", "args"⟩]) "q"
      [("srv", failingClient)] = ([], false) :=
  interact_empty_registry_or_all_listings_fail.2
    (some [⟨"srv", "tool", "args"⟩]) "q" [("srv", failingClient)]
    (by
      intro p hp
      simp only [List.mem_singleton] at hp
      subst hp
      exact ⟨"listing failed", rfl⟩)

/-- First source for the claim C4 run: top passage score 0.1. -/
def lowScoreSource : Source := ⟨some ["d1"], some ["m1"]⟩

/-- Second source for the claim C4 run: top passage score 0.9. -/
def highScoreSource : Source := ⟨some ["d2"], some ["m2"]⟩

/-- Claim C4 (code bug): the result-level sort key rebuilds the zipped
triples with `[0.0] * len(documents)` instead of the reranking scores, so
every key is `0.0` and the stable sort leaves the source order unchanged:
here the source with top passage score 0.1 stays ahead of the one with top
passage score 0.9, although the code's own comment says "Sort results by
highest reranking score". -/
theorem rerank_result_order_unchanged :
    rerank_search_results [mkRat 1 10, mkRat 9 10]
        [lowScoreSource, highScoreSource] = [lowScoreSource, highScoreSource] ∧
    (mkRat 1 10 : Score) < mkRat 9 10 := by
  constructor
  · decide
  · decide

/-- The single source of the claim C5 example run. -/
def exampleSourceABC : Source := ⟨some ["a", "b", "c"], some ["ma", "mb", "mc"]⟩

/-- Claim C5 (confirmed): reranking a single source with documents
`["a","b","c"]` under scores `[0.1, 0.9, 0.5]` reorders its documents to
`["b","c","a"]`; and whenever fewer scores are returned than pairs were
sent, the missing scores are taken as `0.0` (the assignment loop pads with
zeros instead of faulting). -/
theorem rerank_example_and_zero_padding :
    ((rerank_search_results [mkRat 1 10, mkRat 9 10, mkRat 5 10]
        [exampleSourceABC]).map (fun r => r.document) = [some ["b", "c", "a"]]) ∧
    (∀ (scores : List Score) (n : Nat), scores.length ≤ n →
      (assignScores scores 0 n).1 =
        scores ++ List.replicate (n - scores.length) (0 : Score)) := by
  constructor
  · decide
  · intro scores n hle
    have h := assignScores_eq scores n 0
    simpa [List.take_of_length_le hle] using h

/-- Witness for claim C5: three documents but a single returned score `0.9`;
the assignment loop produces `[0.9, 0.0, 0.0]`. -/
theorem rerank_example_and_zero_padding_witness :
    (assignScores [mkRat 9 10] 0 3).1 =
      [mkRat 9 10] ++ List.replicate 2 (0 : Score) :=
  rerank_example_and_zero_padding.2 [mkRat 9 10] 3 (by decide)

/-- An oracle whose stages return inert defaults, for concrete runs. -/
def trivialOracle : AttemptOracle where
  analysis := fun _ => ⟨true, "", "", 0⟩
  mcpResults := fun _ => []
  sources := fun _ => []
  rerankScores := fun _ _ => []
  answer := fun _ _ _ => ""
  validation := fun _ _ => ⟨true, true, "", 0⟩
  rewritten := fun q _ _ => q

/-- Claim C10 (confirmed): constructed with `max_iterations ≤ 0`, `process`
completes no attempt (empty ghost trace, hence no external call in the
model) and returns iterations 0, the static fallback answer, empty sources
and tool results, and the original query as `final_query`. -/
theorem process_nonpositive_max_iterations (env : Nat → AttemptOracle)
    (max_iterations : Int) (hasClients hasCollections hasReranker : Bool)
    (query : String) (k_reranker : Nat) (h : max_iterations ≤ 0) :
    process env max_iterations hasClients hasCollections hasReranker query
        k_reranker =
      ({ answer := fallbackAnswer, sources := [], mcp_results := [],
         iterations := 0, final_query := query }, []) := by
  have hM : max_iterations.toNat = 0 := by omega
  simp [process, hM, processGo, pyOrElse]

/-- Witness for claim C10 at `max_iterations = -2`. -/
theorem process_nonpositive_max_iterations_witness :
    process (fun _ => trivialOracle) (-2) false false false "q" 3 =
      ({ answer := fallbackAnswer, sources := [], mcp_results := [],
         iterations := 0, final_query := "q" }, []) :=
  process_nonpositive_max_iterations (fun _ => trivialOracle) (-2)
    false false false "q" 3 (by decide)

/-- Claim C1 counterexample: with `max_iterations = 0` (the constructor
accepts any int) `process` returns `iterations = 0`, refuting
"for every call to process(), 1 ≤ iterations". -/
theorem process_zero_iterations_possible :
    (process (fun _ => trivialOracle) 0 false false false "q" 3).1.iterations
      = 0 := rfl

/-- Claim C8 (confirmed): with a configured scoring function, a source with
non-empty documents whose metadata is absent or shorter than its documents
has its document list truncated to the metadata length by the `zip` in the
per-source sort — in particular emptied when metadata is absent. -/
theorem rerank_truncates_to_metadata (scores : List Score)
    (docs m : List String) (hd : docs ≠ []) :
    ((rerank_search_results scores [⟨some docs, none⟩]).map
        (fun r => r.document) = [some []]) ∧
    (m.length < docs.length →
      ∃ docs' m', rerank_search_results scores [⟨some docs, some m⟩]
          = [⟨some docs', some m'⟩] ∧ docs'.length = m.length ∧
          m'.length = m.length) := by
  have hne0 : docs.length ≠ 0 := by
    intro h0
    exact hd (List.length_eq_zero.1 h0)
  have hds_len := assignScores_length scores docs.length 0
  have hds_ne : ¬ (assignScores scores 0 docs.length).1 = [] := by
    intro hnil
    rw [hnil] at hds_len
    simp only [List.length_nil] at hds_len
    omega
  constructor
  · simp only [rerank_search_results, sentencesCount, List.isEmpty_cons,
      List.map_cons, List.map_nil, Option.getD_some, List.sum_cons,
      List.sum_nil, Nat.add_zero, if_false, Bool.false_eq_true, hne0,
      if_neg hne0, rerankPass, hds_ne]
    simp [sortResults_single, List.zip_nil_right, List.insertionSort]
  · intro hm
    refine ⟨(List.insertionSort descByScore
        ((docs.zip m).zip (assignScores scores 0 docs.length).1)).map
          (fun p => p.1.1),
      (List.insertionSort descByScore
        ((docs.zip m).zip (assignScores scores 0 docs.length).1)).map
          (fun p => p.1.2), ?_, ?_, ?_⟩
    · simp only [rerank_search_results, sentencesCount, List.isEmpty_cons,
        List.map_cons, List.map_nil, Option.getD_some, List.sum_cons,
        List.sum_nil, Nat.add_zero, if_neg hne0, rerankPass, hds_ne]
      simp [sortResults_single]
    · have hperm := List.perm_insertionSort descByScore
        ((docs.zip m).zip (assignScores scores 0 docs.length).1)
      simp [hperm.length_eq, List.length_zip, hds_len]
      omega
    · have hperm := List.perm_insertionSort descByScore
        ((docs.zip m).zip (assignScores scores 0 docs.length).1)
      simp [hperm.length_eq, List.length_zip, hds_len]
      omega

/-- Witness for claim C8: documents `["a","b","c"]` with a single metadata
entry are truncated to one passage; with no metadata they are emptied. -/
theorem rerank_truncates_to_metadata_witness :
    ((rerank_search_results [] [⟨some ["a", "b", "c"], none⟩]).map
        (fun r => r.document) = [some []]) ∧
    (∃ docs' m', rerank_search_results [] [⟨some ["a", "b", "c"], some ["ma"]⟩]
        = [⟨some docs', some m'⟩] ∧ docs'.length = 1 ∧ m'.length = 1) := by
  have h := rerank_truncates_to_metadata [] ["a", "b", "c"] ["ma"]
    (by decide)
  exact ⟨h.1, by simpa using h.2 (by decide)⟩

/-- Alignment relation for claim C3: whenever the input source carries
parallel `documents`/`metadata` sequences of equal length, the output source
carries sequences of equal length whose positional pairs are a permutation
of the input's positional pairs (so each metadata entry still accompanies
its document). -/
def alignedWith (r r' : Source) : Prop :=
  ∀ docs meta, r.document = some docs → r.metadata = some meta →
    docs.length = meta.length →
    ∃ docs' meta', r'.document = some docs' ∧ r'.metadata = some meta' ∧
      docs'.length = meta'.length ∧ (docs'.zip meta').Perm (docs.zip meta)

/-- Every source is aligned with itself. -/
theorem alignedWith_refl (r : Source) : alignedWith r r := by
  intro docs meta hdoc hmeta hlen
  exact ⟨docs, meta, hdoc, hmeta, hlen, List.Perm.refl _⟩

/-- The per-source pass sends each input source to an aligned output
source, positionally. -/
theorem rerankPass_aligned (scores : List Score) :
    ∀ (results : List Source) (idx : Nat),
      List.Forall₂ alignedWith results (rerankPass scores idx results) := by
  intro results
  induction results with
  | nil => intro idx; exact List.Forall₂.nil
  | cons r rest ih =>
    intro idx
    unfold rerankPass
    match hdoc : r.document with
    | none => exact List.Forall₂.cons (alignedWith_refl r) (ih idx)
    | some docs =>
      by_cases hds : (assignScores scores idx docs.length).1 = []
      · simp only [hds, if_pos]
        exact List.Forall₂.cons (alignedWith_refl r) (ih _)
      · simp only [hds, if_neg, ite_false]
        refine List.Forall₂.cons ?_ (ih _)
        intro docs meta0 hdoc0 hmeta0 hlen0
        rw [hdoc] at hdoc0
        injection hdoc0 with hdocs
        subst hdocs
        rw [hmeta0]
        simp only [Option.getD_some]
        refine ⟨_, _, rfl, rfl, by simp, ?_⟩
        rw [List.zip_map']
        have hperm := (List.perm_insertionSort descByScore
          ((docs.zip meta0).zip (assignScores scores idx docs.length).1)).map
            (fun p : (String × String) × Score => (p.1.1, p.1.2))
        have hfst : ((docs.zip meta0).zip
            (assignScores scores idx docs.length).1).map
              (fun p : (String × String) × Score => (p.1.1, p.1.2))
            = docs.zip meta0 := by
          have heta : (fun p : (String × String) × Score => (p.1.1, p.1.2))
              = fun p : (String × String) × Score => p.1 := by
            funext p
            rfl
          rw [heta]
          apply List.map_fst_zip
          simp only [List.length_zip, assignScores_length]
          omega
        rw [hfst] at hperm
        exact hperm

/-- Each element of the right list of a `Forall₂` is related to some element
of the left list. -/
theorem forall₂_mem_right {R : Source → Source → Prop} :
    ∀ {l₁ l₂ : List Source}, List.Forall₂ R l₁ l₂ →
      ∀ b ∈ l₂, ∃ a ∈ l₁, R a b := by
  intro l₁ l₂ h
  induction h with
  | nil => intro b hb; cases hb
  | cons hR hrest ih =>
    intro b hb
    rcases List.mem_cons.1 hb with hb | hb
    · subst hb
      exact ⟨_, List.mem_cons_self _ _, hR⟩
    · obtain ⟨a, ha, hab⟩ := ih b hb
      exact ⟨a, List.mem_cons_of_mem _ ha, hab⟩

/-- Claim C3 (confirmed): after any rerank pass, every output source whose
input source carried equal-length parallel `documents`/`metadata` sequences
again carries equal-length sequences whose positional pairs are a
permutation of the input's — index alignment is preserved for every
reordering the scorer induces. -/
theorem rerank_preserves_alignment (scores : List Score)
    (results : List Source) :
    ∀ r' ∈ rerank_search_results scores results,
      ∃ r ∈ results, alignedWith r r' := by
  intro r' hr'
  unfold rerank_search_results at hr'
  split at hr'
  · exact ⟨r', hr', alignedWith_refl r'⟩
  · split at hr'
    · exact ⟨r', hr', alignedWith_refl r'⟩
    · have hr'' : r' ∈ rerankPass scores 0 results :=
        (sortResults_perm _).mem_iff.1 hr'
      exact forall₂_mem_right (rerankPass_aligned scores results 0) r' hr''

/-- Loop invariant of `processGo`: the iteration counter grows by at most
`fuel` and by at least one whenever fuel remains, and the ghost trace grows
by exactly the number of completed iterations. -/
theorem processGo_bounds (env : Nat → AttemptOracle) (M : Nat)
    (origQ : String) (hc hk hr : Bool) (kr : Nat) :
    ∀ (fuel it : Nat) (q : String) (best : Option String)
      (bsrc : List Source) (mcp : Option (List ToolResult))
      (tr : List Attempt),
      (processGo env M origQ hc hk hr kr fuel it q best bsrc mcp tr).iteration
          ≤ it + fuel ∧
      it ≤ (processGo env M origQ hc hk hr kr fuel it q best bsrc mcp
          tr).iteration ∧
      (processGo env M origQ hc hk hr kr fuel it q best bsrc mcp
          tr).trace.length = tr.length +
        ((processGo env M origQ hc hk hr kr fuel it q best bsrc mcp
          tr).iteration - it) ∧
      (1 ≤ fuel →
        it + 1 ≤ (processGo env M origQ hc hk hr kr fuel it q best bsrc mcp
          tr).iteration) := by
  intro fuel
  induction fuel with
  | zero =>
    intro it q best bsrc mcp tr
    simp [processGo]
  | succ f ih =>
    intro it q best bsrc mcp tr
    simp only [processGo]
    split
    · dsimp only
      simp only [List.length_append, List.length_cons, List.length_nil]
      omega
    · split
      · obtain ⟨h1, h2, h3, h4⟩ := ih (it + 1)
          ((env (it + 1)).rewritten origQ
            (stepAttempt env hc hk hr kr (it + 1) q).answer
            (stepAttempt env hc hk hr kr (it + 1) q).validation)
          best bsrc
          (some (stepAttempt env hc hk hr kr (it + 1) q).mcpResults)
          (tr ++ [stepAttempt env hc hk hr kr (it + 1) q])
        simp only [List.length_append, List.length_cons, List.length_nil]
          at h3
        refine ⟨by omega, by omega, by omega, fun _ => by omega⟩
      · dsimp only
        simp only [List.length_append, List.length_cons, List.length_nil]
        omega

/-- Claim C1 (amended: for `max_iterations ≥ 1`): `process` returns
`iterations` with `1 ≤ iterations ≤ max_iterations`, and it equals the
number of completed attempts — the length of the ghost trace, which gains
exactly one entry per completed attempt, including the terminal one. -/
theorem process_iterations_bounds (env : Nat → AttemptOracle)
    (max_iterations : Int) (hasClients hasCollections hasReranker : Bool)
    (query : String) (k_reranker : Nat) (h : 1 ≤ max_iterations) :
    1 ≤ (process env max_iterations hasClients hasCollections hasReranker
        query k_reranker).1.iterations ∧
    ((process env max_iterations hasClients hasCollections hasReranker
        query k_reranker).1.iterations : Int) ≤ max_iterations ∧
    (process env max_iterations hasClients hasCollections hasReranker
        query k_reranker).1.iterations =
      (process env max_iterations hasClients hasCollections hasReranker
        query k_reranker).2.length := by
  obtain ⟨h1, h2, h3, h4⟩ := processGo_bounds env max_iterations.toNat query
    hasClients hasCollections hasReranker k_reranker max_iterations.toNat 0
    query none [] none []
  simp only [process]
  simp only [List.length_nil] at h3
  have hM : 1 ≤ max_iterations.toNat := by omega
  refine ⟨h4 hM, by omega, by omega⟩

/-- Witness for the amended claim C1: a single-iteration run with the
inert oracle returns `iterations = 1` with a one-attempt trace. -/
theorem process_iterations_bounds_witness :
    1 ≤ (process (fun _ => trivialOracle) 1 false false false "q"
        3).1.iterations ∧
    ((process (fun _ => trivialOracle) 1 false false false "q"
        3).1.iterations : Int) ≤ 1 ∧
    (process (fun _ => trivialOracle) 1 false false false "q"
        3).1.iterations =
      (process (fun _ => trivialOracle) 1 false false false "q" 3).2.length :=
  process_iterations_bounds (fun _ => trivialOracle) 1 false false false
    "q" 3 (by decide)

/-- Loop invariant of `processGo` when the validator never accepts: all
remaining fuel is consumed, the final iteration count is the bound `M`,
and the returned `best_answer` is the last completed attempt's answer. -/
theorem processGo_never_valid (env : Nat → AttemptOracle) (M : Nat)
    (origQ : String) (hc hk hr : Bool) (kr : Nat)
    (hv : ∀ i q a, ((env i).validation q a).is_valid = false) :
    ∀ (fuel it : Nat) (q : String) (best : Option String)
      (bsrc : List Source) (mcp : Option (List ToolResult))
      (tr : List Attempt), fuel = M - it → it < M →
      (processGo env M origQ hc hk hr kr fuel it q best bsrc mcp
          tr).iteration = M ∧
      (processGo env M origQ hc hk hr kr fuel it q best bsrc mcp
          tr).trace.length = tr.length + fuel ∧
      (processGo env M origQ hc hk hr kr fuel it q best bsrc mcp tr).best =
        (processGo env M origQ hc hk hr kr fuel it q best bsrc mcp
          tr).trace.getLast?.map (fun att => att.answer) := by
  intro fuel
  induction fuel with
  | zero =>
    intro it q best bsrc mcp tr hfuel hit
    omega
  | succ f ih =>
    intro it q best bsrc mcp tr hfuel hit
    have hval : (stepAttempt env hc hk hr kr (it + 1) q).validation.is_valid
        = false := by
      unfold stepAttempt
      dsimp only
      exact hv (it + 1) _ _
    simp only [processGo, hval, Bool.false_eq_true, if_false]
    split
    · rename_i hlt
      obtain ⟨h1, h2, h3⟩ := ih (it + 1)
        ((env (it + 1)).rewritten origQ
          (stepAttempt env hc hk hr kr (it + 1) q).answer
          (stepAttempt env hc hk hr kr (it + 1) q).validation)
        best bsrc
        (some (stepAttempt env hc hk hr kr (it + 1) q).mcpResults)
        (tr ++ [stepAttempt env hc hk hr kr (it + 1) q]) (by omega) hlt
      refine ⟨h1, ?_, h3⟩
      simp only [List.length_append, List.length_cons, List.length_nil] at h2
      omega
    · rename_i hge
      dsimp only
      refine ⟨by omega, ?_, ?_⟩
      · simp only [List.length_append, List.length_cons, List.length_nil]
        omega
      · simp [List.getLast?_concat]

/-- Claim C2 (amended): if the validator never accepts within
`max_iterations ≥ 1` attempts, `process` returns
`iterations = max_iterations`, and its answer is the last attempt's
generated answer whenever that answer is non-empty; the static fallback
string is substituted exactly when the last attempt's answer is the empty
string (earlier attempts' answers are never consulted). -/
theorem process_exhausted_returns_last_answer (env : Nat → AttemptOracle)
    (max_iterations : Int) (hasClients hasCollections hasReranker : Bool)
    (query : String) (k_reranker : Nat) (h : 1 ≤ max_iterations)
    (hv : ∀ i q a, ((env i).validation q a).is_valid = false) :
    ((process env max_iterations hasClients hasCollections hasReranker
        query k_reranker).1.iterations : Int) = max_iterations ∧
    (process env max_iterations hasClients hasCollections hasReranker
        query k_reranker).2 ≠ [] ∧
    (∀ a, (process env max_iterations hasClients hasCollections hasReranker
        query k_reranker).2.getLast?.map (fun att => att.answer) = some a →
      (process env max_iterations hasClients hasCollections hasReranker
        query k_reranker).1.answer =
        if a = "" then fallbackAnswer else a) := by
  have hM : 0 < max_iterations.toNat := by omega
  obtain ⟨h1, h2, h3⟩ := processGo_never_valid env max_iterations.toNat query
    hasClients hasCollections hasReranker k_reranker hv max_iterations.toNat
    0 query none [] none [] (by omega) hM
  simp only [process]
  simp only [List.length_nil, Nat.zero_add] at h2
  refine ⟨by omega, ?_, ?_⟩
  · intro hnil
    rw [hnil] at h2
    simp only [List.length_nil] at h2
    omega
  · intro a ha
    rw [ha] at h3
    simp only [h3, pyOrElse]

/-- The oracle of the claim C2 runs: never valid; the generated answer is
"draft" on attempt 1 and empty afterwards. -/
def lastEmptyOracle : Nat → AttemptOracle := fun i =>
  { analysis := fun _ => ⟨false, "", "", 0⟩
    mcpResults := fun _ => []
    sources := fun _ => []
    rerankScores := fun _ _ => []
    answer := fun _ _ _ => if i = 1 then "draft" else ""
    validation := fun _ _ => ⟨false, true, "", 0⟩
    rewritten := fun q _ _ => q }

/-- Claim C2 counterexample: with two exhausted attempts whose generated
answers are "draft" then "", the returned answer is the static fallback
string — although an answer was produced in attempt 1 and the last
attempt's generated answer is "", not the fallback. -/
theorem process_exhausted_fallback_despite_answer :
    (process lastEmptyOracle 2 false false false "q" 3).1.answer =
      fallbackAnswer ∧
    (process lastEmptyOracle 2 false false false "q" 3).2.map
      (fun att => att.answer) = ["draft", ""] ∧
    fallbackAnswer ≠ "" := by
  refine ⟨?_, ?_, ?_⟩ <;> decide

/-- Witness for the amended claim C2: a two-attempt exhausted run whose
last answer is non-empty returns exactly that answer. -/
theorem process_exhausted_returns_last_answer_witness :
    ((process (fun _ => lastEmptyOracle 1) 2 false false false "q"
        3).1.iterations : Int) = 2 ∧
    (process (fun _ => lastEmptyOracle 1) 2 false false false "q"
        3).1.answer = if "draft" = "" then fallbackAnswer else "draft" := by
  have h := process_exhausted_returns_last_answer (fun _ => lastEmptyOracle 1)
    2 false false false "q" 3 (by decide) (fun _ _ _ => rfl)
  exact ⟨h.1, h.2.2 "draft" (by decide)⟩

/-- Witness for claim C3 at the claim C5 example run: the reranked source
`⟨["b","c","a"], ["mb","mc","ma"]⟩` is aligned with the input source. -/
theorem rerank_preserves_alignment_witness :
    ∃ r ∈ [exampleSourceABC],
      alignedWith r ⟨some ["b", "c", "a"], some ["mb", "mc", "ma"]⟩ :=
  rerank_preserves_alignment [mkRat 1 10, mkRat 9 10, mkRat 5 10]
    [exampleSourceABC] ⟨some ["b", "c", "a"], some ["mb", "mc", "ma"]⟩
    (by decide)

end AgenticRAG
